import Mathlib

/-!
Verification of the VaultX core (vx-core / vx-cli) against its specification.

The Rust sources are shallowly embedded:
* byte strings are lists of naturals;
* std HashMap is an association list with first-occurrence semantics;
* the argon2 / aes-gcm crates (external dependencies, not repository code)
  are replaced by a symbolic cipher that satisfies exactly the contracts the
  specification states for them in sections 4.1 and 8: key derivation is a
  deterministic injective function of (password, salt), authenticated
  decryption inverts encryption under the same key and nonce and fails
  under any other key;
* serde_json (external dependency) is replaced by an injective executable
  serializer with a decoder that inverts it;
* randomness (salts, nonces) and the wall clock are threaded as explicit
  arguments, mirroring where the Rust code samples them.
-/

namespace VX

/-- Byte strings of the Rust code, as lists of naturals. -/
abbrev Bytes := List Nat

/-! ## Association-list model of std HashMap -/

/-- Model of HashMap::get: value of the first binding of the key. -/
def mapGet {α : Type} : List (String × α) → String → Option α
  | [], _ => none
  | e :: rest, k => if e.1 = k then some e.2 else mapGet rest k

/-- Model of HashMap::contains_key. -/
def mapContains {α : Type} (m : List (String × α)) (k : String) : Bool :=
  (mapGet m k).isSome

/-- Model of HashMap::insert: replace the binding of the key, or append a
fresh binding. -/
def mapInsert {α : Type} : List (String × α) → String → α → List (String × α)
  | [], k, v => [(k, v)]
  | e :: rest, k, v => if e.1 = k then (k, v) :: rest else e :: mapInsert rest k v

/-- Model of HashMap::remove: drop the binding of the key; the boolean is
is_some of the returned value. -/
def mapRemove {α : Type} : List (String × α) → String → List (String × α) × Bool
  | [], _ => ([], false)
  | e :: rest, k =>
    if e.1 = k then (rest, true)
    else
      let r := mapRemove rest k
      (e :: r.1, r.2)

theorem mapRemove_absent {α : Type} (m : List (String × α)) (k : String)
    (h : (mapRemove m k).2 = false) : (mapRemove m k).1 = m := by
  induction m with
  | nil => rfl
  | cons e rest ih =>
    by_cases he : e.1 = k
    · simp [mapRemove, he] at h
    · simp [mapRemove, he] at h ⊢
      exact ih h

theorem mapInsert_get_self {α : Type} (m : List (String × α)) (k : String) (a : α)
    (h : mapGet m k = some a) : mapInsert m k a = m := by
  induction m with
  | nil => simp [mapGet] at h
  | cons e rest ih =>
    obtain ⟨e1, e2⟩ := e
    by_cases he : e1 = k
    · subst he
      simp [mapGet] at h
      simp [mapInsert, h]
    · simp [mapGet, he] at h
      simp [mapInsert, he]
      exact ih h

theorem mapGet_mem {α : Type} (m : List (String × α)) (k : String) (a : α)
    (h : mapGet m k = some a) : (k, a) ∈ m := by
  induction m with
  | nil => simp [mapGet] at h
  | cons e rest ih =>
    obtain ⟨e1, e2⟩ := e
    by_cases he : e1 = k
    · subst he
      simp [mapGet] at h
      subst h
      exact List.mem_cons_self _ _
    · simp [mapGet, he] at h
      exact List.mem_cons_of_mem _ (ih h)

theorem mapInsert_mem {α : Type} (m : List (String × α)) (k : String) (a : α)
    (e : String × α) (h : e ∈ mapInsert m k a) : e = (k, a) ∨ e ∈ m := by
  induction m with
  | nil =>
    simp [mapInsert] at h
    exact Or.inl h
  | cons f rest ih =>
    by_cases hf : f.1 = k
    · simp [mapInsert, hf] at h
      rcases h with h | h
      · exact Or.inl h
      · exact Or.inr (List.mem_cons_of_mem _ h)
    · simp [mapInsert, hf] at h
      rcases h with h | h
      · exact Or.inr (by simp [h])
      · rcases ih h with h' | h'
        · exact Or.inl h'
        · exact Or.inr (List.mem_cons_of_mem _ h')

theorem mapRemove_mem {α : Type} (m : List (String × α)) (k : String)
    (e : String × α) (h : e ∈ (mapRemove m k).1) : e ∈ m := by
  induction m with
  | nil => simp [mapRemove] at h
  | cons f rest ih =>
    by_cases hf : f.1 = k
    · simp [mapRemove, hf] at h
      exact List.mem_cons_of_mem _ h
    · simp [mapRemove, hf] at h
      rcases h with h | h
      · simp [h]
      · exact List.mem_cons_of_mem _ (ih h)

/-! ## Symbolic model of crypto.rs (the argon2 / aes-gcm crates)

Modelled from the spec: the crates are external code, so the primitives are
replaced by the idealized contracts of spec sections 4.1 and 8: derive_key
is deterministic in (password, salt) and distinct passwords give distinct
keys; decrypt inverts encrypt under the same key and nonce and fails with
DecryptionFailed under any other key. -/

/-- A derived key, kept symbolic as the pair of Argon2id inputs that
produced it; this realizes the determinism and injectivity the spec
asserts for derive_key (spec section 8, property 3). -/
structure DerivedKey where
  pw : Bytes
  salt : Bytes
deriving DecidableEq, Repr

/-- Model of crypto::derive_key (Argon2id, 64 MiB, 3 iterations, 4 lanes). -/
def derive_key (password : Bytes) (salt : Bytes) : DerivedKey :=
  { pw := password, salt := salt }

/-- Mirror of crypto::EncryptedData: ciphertext plus the 12-byte nonce. -/
structure EncryptedData where
  ciphertext : Bytes
  nonce : Bytes
deriving DecidableEq, Repr

/-- Length-prefixed frame, the building block of the symbolic cipher and of
the payload serializer. -/
def lenFrame (b : Bytes) : Bytes := b.length :: b

/-- Reads one length-prefixed frame off the front of a byte string. -/
def readFrame (b : Bytes) : Option (Bytes × Bytes) :=
  match b with
  | [] => none
  | n :: rest => if n ≤ rest.length then some (rest.take n, rest.drop n) else none

/-- Model of crypto::encrypt (AES-256-GCM). The random nonce the Rust code
samples inside the call is passed explicitly. The symbolic ciphertext binds
the key and the nonce, which realizes the AEAD authentication contract. -/
def encrypt (plaintext : Bytes) (key : DerivedKey) (nonce : Bytes) : EncryptedData :=
  { ciphertext := lenFrame key.pw ++ lenFrame key.salt ++ lenFrame nonce ++ plaintext
    nonce := nonce }

/-- Model of crypto::decrypt: succeeds exactly on ciphertexts produced under
the same key and nonce, and otherwise fails (the single opaque
DecryptionFailed of the spec, returned as none here). -/
def decrypt (encrypted : EncryptedData) (key : DerivedKey) : Option Bytes := do
  let (p, r1) ← readFrame encrypted.ciphertext
  let (s, r2) ← readFrame r1
  let (n, plaintext) ← readFrame r2
  if key = { pw := p, salt := s } ∧ encrypted.nonce = n then some plaintext else none

theorem readFrame_lenFrame (b r : Bytes) : readFrame (lenFrame b ++ r) = some (b, r) := by
  simp [readFrame, lenFrame, List.take_left, List.drop_left]

/-- Round trip of the symbolic cipher (spec section 8, property 1). -/
theorem decrypt_encrypt (p : Bytes) (k : DerivedKey) (n : Bytes) :
    decrypt (encrypt p k n) k = some p := by
  simp [decrypt, encrypt, List.append_assoc, readFrame_lenFrame]

/-- Decryption under a different key fails (spec section 8, property 3 with
section 4.1: wrong key gives DecryptionFailed). -/
theorem decrypt_encrypt_ne (p : Bytes) (k k' : DerivedKey) (n : Bytes) (h : k' ≠ k) :
    decrypt (encrypt p k n) k' = none := by
  simp [decrypt, encrypt, List.append_assoc, readFrame_lenFrame]
  intro hk
  exact absurd (by cases k; cases k'; simp_all) h

/-! ## Error types (src/vx-core/src/error.rs) -/

/-- Mirror of error.rs CryptoError. -/
inductive CryptoError where
  | KeyDerivationFailed
  | EncryptionFailed
  | DecryptionFailed
  | InvalidNonce
  | InvalidKeyLength
deriving DecidableEq, Repr

/-- Mirror of error.rs VaultError. -/
inductive VaultError where
  | ProjectNotFound (name : String)
  | SecretNotFound (name : String)
  | ProjectAlreadyExists (name : String)
  | SecretExpired (name : String)
  | IdentityNotFound (name : String)
  | IdentityAlreadyExists (name : String)
  | ServerNotFound (name : String)
  | ServerAlreadyExists (name : String)
  | InvalidIpAddress (name : String)
  | CorruptedVault
  | AuthenticationFailed
  | InvalidFormat (msg : String)
  | SerializationError (msg : String)
  | CryptoError (e : CryptoError)
deriving DecidableEq, Repr

/-- Mirror of error.rs TtlError. -/
inductive TtlError where
  | InvalidFormat (input : String)
  | InvalidUnit (c : Char)
  | Overflow
  | ZeroOrNegative
deriving DecidableEq, Repr

deriving instance DecidableEq for Except

/-! ## TTL arithmetic (src/vx-core/src/ttl.rs) -/

def SECONDS_PER_MINUTE : Nat := 60

def SECONDS_PER_HOUR : Nat := 3600

def SECONDS_PER_DAY : Nat := 86400

def SECONDS_PER_WEEK : Nat := 604800

/-- Largest u64 value, for Rust's checked arithmetic. -/
def U64_MAX : Nat := 2 ^ 64 - 1

/-- True on the ASCII characters Rust's char::is_whitespace accepts (the
embedding covers ASCII input; multi-byte characters are outside it). -/
def rustWhitespace (c : Char) : Bool :=
  c.toNat = 9 || c.toNat = 10 || c.toNat = 11 || c.toNat = 12 ||
    c.toNat = 13 || c.toNat = 32

/-- Model of str::trim on ASCII text. -/
def rustTrim (s : List Char) : List Char :=
  ((s.dropWhile rustWhitespace).reverse.dropWhile rustWhitespace).reverse

/-- ASCII digit test, as Rust's u64 parser applies it. -/
def isAsciiDigit (c : Char) : Bool := 48 ≤ c.toNat && c.toNat ≤ 57

/-- Accumulated decimal value of a digit string, most significant first. -/
def digitsVal (l : List Char) : Nat :=
  l.foldl (fun a c => a * 10 + (c.toNat - 48)) 0

/-- Rust's u64 parser strips a single leading plus sign. -/
def stripPlusSign (s : List Char) : List Char :=
  match s with
  | c :: rest => if c = '+' then rest else s
  | [] => s

/-- Model of str::parse::<u64>: an optional leading plus sign, then one or
more ASCII digits whose value fits in u64. -/
def parseU64 (s : List Char) : Option Nat :=
  let body := stripPlusSign s
  if !body.isEmpty && body.all isAsciiDigit && digitsVal body ≤ U64_MAX then
    some (digitsVal body)
  else none

/-- Mirror of ttl.rs parse_ttl, on ASCII character lists. -/
def parse_ttl (input : List Char) : Except TtlError Nat :=
  let input := rustTrim input
  if input.isEmpty then .error (.InvalidFormat (String.mk input))
  else
    let num_str := input.take (input.length - 1)
    let unit := input.drop (input.length - 1)
    match parseU64 num_str with
    | none => .error (.InvalidFormat (String.mk input))
    | some value =>
      if value = 0 then .error .ZeroOrNegative
      else
        match unit.head? with
        | none => .error (.InvalidFormat (String.mk input))
        | some unit_char =>
          let multiplier : Except TtlError Nat :=
            if unit_char = 'm' then .ok SECONDS_PER_MINUTE
            else if unit_char = 'h' then .ok SECONDS_PER_HOUR
            else if unit_char = 'd' then .ok SECONDS_PER_DAY
            else if unit_char = 'w' then .ok SECONDS_PER_WEEK
            else .error (.InvalidUnit unit_char)
          match multiplier with
          | .error e => .error e
          | .ok m => if value * m ≤ U64_MAX then .ok (value * m) else .error .Overflow

/-- Mirror of ttl.rs is_expired. -/
def is_expired (expires_at : Option Nat) (now : Nat) : Bool :=
  match expires_at with
  | some expiry => now ≥ expiry
  | none => false

/-- Mirror of ttl.rs calculate_expiry (checked u64 addition). -/
def calculate_expiry (ttl_seconds : Nat) (now : Nat) : Option Nat :=
  if now + ttl_seconds ≤ U64_MAX then some (now + ttl_seconds) else none

/-! ## Vault data structures (src/vx-core/src/vault.rs) -/

/-- Mirror of vault.rs Secret. -/
structure Secret where
  key : String
  encrypted_value : Bytes
  nonce : Bytes
  created_at : Nat
  expires_at : Option Nat
deriving DecidableEq, Repr

/-- Mirror of vault.rs Project. -/
structure Project where
  name : String
  secrets : List (String × Secret)
  created_at : Nat
deriving DecidableEq, Repr

/-- Mirror of vault.rs SshIdentity. -/
structure SshIdentity where
  name : String
  public_key : String
  encrypted_private_key : Bytes
  nonce : Bytes
  created_at : Nat
deriving DecidableEq, Repr

/-- Mirror of vault.rs SshServerConfig. -/
structure SshServerConfig where
  name : String
  username : String
  ip_address : String
  identity_name : String
  created_at : Nat
deriving DecidableEq, Repr

/-- Mirror of vault.rs Vault. -/
structure Vault where
  version : Nat
  projects : List (String × Project)
  ssh_identities : List (String × SshIdentity)
  ssh_servers : List (String × SshServerConfig)
deriving DecidableEq, Repr

/-- Mirror of vault.rs VaultData, the JSON-serialized payload form. -/
structure VaultData where
  version : Nat
  projects : List (String × Project)
  ssh_identities : List (String × SshIdentity)
  ssh_servers : List (String × SshServerConfig)
deriving DecidableEq, Repr

/-- Current vault format version (vault.rs VAULT_VERSION). -/
def VAULT_VERSION : Nat := 1

/-- Mirror of Vault::new. -/
def Vault.new : Vault :=
  { version := VAULT_VERSION, projects := [], ssh_identities := [], ssh_servers := [] }

/-- Mirror of Vault::init_project. The wall clock read by
ttl::current_timestamp is the explicit argument now. -/
def Vault.init_project (v : Vault) (name : String) (now : Nat) :
    Except VaultError Unit × Vault :=
  if mapContains v.projects name then (.error (.ProjectAlreadyExists name), v)
  else
    let project : Project := { name := name, secrets := [], created_at := now }
    (.ok (), { v with projects := mapInsert v.projects name project })

/-- Mirror of Vault::add_secret; the random nonce drawn inside
crypto::encrypt and the wall clock are explicit arguments. -/
def Vault.add_secret (v : Vault) (project : String) (key : String) (value : Bytes)
    (encryption_key : DerivedKey) (ttl_seconds : Option Nat) (now : Nat)
    (nonce : Bytes) : Except VaultError Unit × Vault :=
  match mapGet v.projects project with
  | none => (.error (.ProjectNotFound project), v)
  | some proj =>
    let encrypted := encrypt value encryption_key nonce
    let secret : Secret :=
      { key := key
        encrypted_value := encrypted.ciphertext
        nonce := encrypted.nonce
        created_at := now
        expires_at := ttl_seconds.bind (fun ttl => calculate_expiry ttl now) }
    let proj' := { proj with secrets := mapInsert proj.secrets key secret }
    (.ok (), { v with projects := mapInsert v.projects project proj' })

/-- Mirror of Vault::get_secret; now is the wall clock the expiry check
reads. -/
def Vault.get_secret (v : Vault) (project : String) (key : String)
    (encryption_key : DerivedKey) (now : Nat) : Except VaultError Bytes :=
  match mapGet v.projects project with
  | none => .error (.ProjectNotFound project)
  | some proj =>
    match mapGet proj.secrets key with
    | none => .error (.SecretNotFound key)
    | some secret =>
      if is_expired secret.expires_at now then .error (.SecretExpired key)
      else
        let encrypted : EncryptedData :=
          { ciphertext := secret.encrypted_value, nonce := secret.nonce }
        match decrypt encrypted encryption_key with
        | some plaintext => .ok plaintext
        | none => .error (.CryptoError .DecryptionFailed)

/-- Mirror of Vault::add_ssh_identity. -/
def Vault.add_ssh_identity (v : Vault) (name : String) (public_key : String)
    (private_key : Bytes) (encryption_key : DerivedKey) (now : Nat)
    (nonce : Bytes) : Except VaultError Unit × Vault :=
  if mapContains v.ssh_identities name then (.error (.IdentityAlreadyExists name), v)
  else
    let encrypted := encrypt private_key encryption_key nonce
    let identity : SshIdentity :=
      { name := name
        public_key := public_key
        encrypted_private_key := encrypted.ciphertext
        nonce := encrypted.nonce
        created_at := now }
    (.ok (), { v with ssh_identities := mapInsert v.ssh_identities name identity })

/-- Mirror of Vault::get_ssh_identity. -/
def Vault.get_ssh_identity (v : Vault) (name : String)
    (encryption_key : DerivedKey) : Except VaultError (String × Bytes) :=
  match mapGet v.ssh_identities name with
  | none => .error (.IdentityNotFound name)
  | some identity =>
    let encrypted : EncryptedData :=
      { ciphertext := identity.encrypted_private_key, nonce := identity.nonce }
    match decrypt encrypted encryption_key with
    | some private_key => .ok (identity.public_key, private_key)
    | none => .error (.CryptoError .DecryptionFailed)

/-- Mirror of Vault::add_ssh_server. Note the source only validates that
the identity exists: nothing checks whether a server of the same name is
already present. -/
def Vault.add_ssh_server (v : Vault) (name : String) (username : String)
    (ip_address : String) (identity_name : String) (now : Nat) :
    Except VaultError Unit × Vault :=
  if !mapContains v.ssh_identities identity_name then
    (.error (.IdentityNotFound identity_name), v)
  else
    let server : SshServerConfig :=
      { name := name
        username := username
        ip_address := ip_address
        identity_name := identity_name
        created_at := now }
    (.ok (), { v with ssh_servers := mapInsert v.ssh_servers name server })

/-- Mirror of Vault::get_ssh_server. -/
def Vault.get_ssh_server (v : Vault) (name : String) :
    Except VaultError SshServerConfig :=
  match mapGet v.ssh_servers name with
  | none => .error (.ServerNotFound name)
  | some server => .ok server

/-- Mirror of Vault::has_ssh_server. -/
def Vault.has_ssh_server (v : Vault) (name : String) : Bool :=
  mapContains v.ssh_servers name

/-- Mirror of Vault::remove_project. -/
def Vault.remove_project (v : Vault) (name : String) :
    Except VaultError Unit × Vault :=
  let r := mapRemove v.projects name
  if r.2 then (.ok (), { v with projects := r.1 })
  else (.error (.ProjectNotFound name), { v with projects := r.1 })

/-- Mirror of Vault::remove_secret. As in the source, the project is looked
up mutably first, so the error branch still carries the (unchanged) map. -/
def Vault.remove_secret (v : Vault) (project : String) (key : String) :
    Except VaultError Unit × Vault :=
  match mapGet v.projects project with
  | none => (.error (.ProjectNotFound project), v)
  | some proj =>
    let r := mapRemove proj.secrets key
    let v' := { v with projects := mapInsert v.projects project { proj with secrets := r.1 } }
    if r.2 then (.ok (), v') else (.error (.SecretNotFound key), v')

/-! ## Payload serializer

Modelled from the spec: serde_json is an external crate; section 4.5 only
requires that the payload is a serialization of the vault root that load
can parse back. It is replaced by an injective executable encoder with a
decoder that inverts it. -/

/-- Character roundtrip used by the string decoder. -/
theorem char_ofNat_toNat (c : Char) : Char.ofNat c.toNat = c := by
  have hv : c.toNat.isValidChar := c.valid
  simp [Char.ofNat, hv, Char.ofNatAux]
  rcases c with ⟨⟨n, hlt⟩, hcv⟩
  apply Char.ext
  simp [Char.toNat, UInt32.toNat]
  apply UInt32.ext
  simp [UInt32.toNat]

/-- Code points of a string, the byte form strings take in the model. -/
def strBytes (s : String) : Bytes := s.toList.map Char.toNat

/-- Serialize one string field. -/
def encStr (s : String) : Bytes := lenFrame (strBytes s)

/-- Parse one string field. -/
def decStr (b : Bytes) : Option (String × Bytes) :=
  (readFrame b).map (fun f => (String.mk (f.1.map Char.ofNat), f.2))

theorem decStr_encStr (s : String) (r : Bytes) :
    decStr (encStr s ++ r) = some (s, r) := by
  simp [decStr, encStr, readFrame_lenFrame, strBytes]
  rcases s with ⟨l⟩
  simp [List.map_map]
  apply congrArg String.mk
  calc l.map (Char.ofNat ∘ Char.toNat) = l.map id := by
        apply List.map_congr_left
        intro c _
        exact char_ofNat_toNat c
    _ = l := l.map_id

/-- Serialize one u64 field. -/
def encNat (n : Nat) : Bytes := [n]

/-- Parse one u64 field. -/
def decNat (b : Bytes) : Option (Nat × Bytes) :=
  match b with
  | [] => none
  | n :: r => some (n, r)

theorem decNat_encNat (n : Nat) (r : Bytes) : decNat (encNat n ++ r) = some (n, r) := rfl

/-- Serialize an optional u64 field. -/
def encOptNat : Option Nat → Bytes
  | none => [0]
  | some n => [1, n]

/-- Parse an optional u64 field. -/
def decOptNat (b : Bytes) : Option (Option Nat × Bytes) :=
  match b with
  | 0 :: r => some (none, r)
  | 1 :: n :: r => some (some n, r)
  | _ => none

theorem decOptNat_encOptNat (o : Option Nat) (r : Bytes) :
    decOptNat (encOptNat o ++ r) = some (o, r) := by
  cases o <;> rfl

/-- Serialize one secret record. -/
def encSecret (s : Secret) : Bytes :=
  encStr s.key ++ lenFrame s.encrypted_value ++ lenFrame s.nonce ++
    encNat s.created_at ++ encOptNat s.expires_at

/-- Parse one secret record. -/
def decSecret (b : Bytes) : Option (Secret × Bytes) := do
  let (key, b) ← decStr b
  let (ev, b) ← readFrame b
  let (nn, b) ← readFrame b
  let (ca, b) ← decNat b
  let (ea, b) ← decOptNat b
  pure ({ key := key, encrypted_value := ev, nonce := nn, created_at := ca,
          expires_at := ea }, b)

theorem decSecret_encSecret (s : Secret) (r : Bytes) :
    decSecret (encSecret s ++ r) = some (s, r) := by
  simp [decSecret, encSecret, List.append_assoc, decStr_encStr, readFrame_lenFrame,
    decNat, encNat, decOptNat_encOptNat]

/-- Serialize one identity record. -/
def encIdentity (i : SshIdentity) : Bytes :=
  encStr i.name ++ encStr i.public_key ++ lenFrame i.encrypted_private_key ++
    lenFrame i.nonce ++ encNat i.created_at

/-- Parse one identity record. -/
def decIdentity (b : Bytes) : Option (SshIdentity × Bytes) := do
  let (name, b) ← decStr b
  let (pk, b) ← decStr b
  let (epk, b) ← readFrame b
  let (nn, b) ← readFrame b
  let (ca, b) ← decNat b
  pure ({ name := name, public_key := pk, encrypted_private_key := epk,
          nonce := nn, created_at := ca }, b)

theorem decIdentity_encIdentity (i : SshIdentity) (r : Bytes) :
    decIdentity (encIdentity i ++ r) = some (i, r) := by
  simp [decIdentity, encIdentity, List.append_assoc, decStr_encStr,
    readFrame_lenFrame, decNat, encNat]

/-- Serialize one server record. -/
def encServer (c : SshServerConfig) : Bytes :=
  encStr c.name ++ encStr c.username ++ encStr c.ip_address ++
    encStr c.identity_name ++ encNat c.created_at

/-- Parse one server record. -/
def decServer (b : Bytes) : Option (SshServerConfig × Bytes) := do
  let (name, b) ← decStr b
  let (u, b) ← decStr b
  let (ip, b) ← decStr b
  let (idn, b) ← decStr b
  let (ca, b) ← decNat b
  pure ({ name := name, username := u, ip_address := ip, identity_name := idn,
          created_at := ca }, b)

theorem decServer_encServer (c : SshServerConfig) (r : Bytes) :
    decServer (encServer c ++ r) = some (c, r) := by
  simp [decServer, encServer, List.append_assoc, decStr_encStr, decNat, encNat]

/-- Serialize a name-keyed map, entry count first. -/
def encEntries {α : Type} (enc : α → Bytes) (m : List (String × α)) : Bytes :=
  m.length :: (m.map (fun e => encStr e.1 ++ enc e.2)).flatten

/-- Parse a given number of map entries. -/
def decEntriesAux {α : Type} (dec : Bytes → Option (α × Bytes)) :
    Nat → Bytes → Option (List (String × α) × Bytes)
  | 0, b => some ([], b)
  | k + 1, b => do
    let (s, b) ← decStr b
    let (v, b) ← dec b
    let (rest, b) ← decEntriesAux dec k b
    pure ((s, v) :: rest, b)

/-- Parse a name-keyed map. -/
def decEntries {α : Type} (dec : Bytes → Option (α × Bytes)) (b : Bytes) :
    Option (List (String × α) × Bytes) := do
  let (n, b) ← decNat b
  decEntriesAux dec n b

theorem decEntries_encEntries {α : Type} (enc : α → Bytes)
    (dec : Bytes → Option (α × Bytes))
    (hinv : ∀ a r, dec (enc a ++ r) = some (a, r))
    (m : List (String × α)) (r : Bytes) :
    decEntries dec (encEntries enc m ++ r) = some (m, r) := by
  have aux : ∀ (m : List (String × α)) (r : Bytes),
      decEntriesAux dec m.length ((m.map (fun e => encStr e.1 ++ enc e.2)).flatten ++ r)
        = some (m, r) := by
    intro m
    induction m with
    | nil => intro r; simp [decEntriesAux]
    | cons e rest ih =>
      intro r
      simp only [List.map_cons, List.flatten, List.length_cons, List.append_assoc]
      simp [decEntriesAux, List.append_assoc, decStr_encStr, hinv, ih]
  simp [decEntries, encEntries, decNat]
  exact aux m r

/-- Serialize the whole payload (the serde_json stand-in). -/
def encodeVaultData (d : VaultData) : Bytes :=
  encNat d.version ++ encEntries (fun p =>
      encStr p.name ++ encEntries encSecret p.secrets ++ encNat p.created_at)
    d.projects ++ encEntries encIdentity d.ssh_identities ++
    encEntries encServer d.ssh_servers

/-- Parse one project record. -/
def decProject (b : Bytes) : Option (Project × Bytes) := do
  let (name, b) ← decStr b
  let (secrets, b) ← decEntries decSecret b
  let (ca, b) ← decNat b
  pure ({ name := name, secrets := secrets, created_at := ca }, b)

/-- Parse the whole payload; trailing bytes are rejected as serde_json
rejects trailing input. -/
def decodeVaultData (b : Bytes) : Option VaultData := do
  let (version, b) ← decNat b
  let (projects, b) ← decEntries decProject b
  let (ids, b) ← decEntries decIdentity b
  let (servers, b) ← decEntries decServer b
  if b.isEmpty then
    pure { version := version, projects := projects, ssh_identities := ids,
           ssh_servers := servers }
  else none

theorem decProject_enc (p : Project) (r : Bytes) :
    decProject ((encStr p.name ++ encEntries encSecret p.secrets ++
      encNat p.created_at) ++ r) = some (p, r) := by
  simp [decProject, List.append_assoc, decStr_encStr,
    decEntries_encEntries encSecret decSecret decSecret_encSecret, decNat, encNat]

theorem decodeVaultData_encodeVaultData (d : VaultData) :
    decodeVaultData (encodeVaultData d) = some d := by
  have h1 := decEntries_encEntries
    (fun p => encStr p.name ++ encEntries encSecret p.secrets ++ encNat p.created_at)
    decProject decProject_enc d.projects
  have h2 := decEntries_encEntries encIdentity decIdentity decIdentity_encIdentity
    d.ssh_identities
  have h3 := decEntries_encEntries encServer decServer decServer_encServer
    d.ssh_servers
  have hshape : encodeVaultData d = d.version :: (encEntries (fun p =>
      encStr p.name ++ encEntries encSecret p.secrets ++ encNat p.created_at)
      d.projects ++ (encEntries encIdentity d.ssh_identities ++
      encEntries encServer d.ssh_servers)) := by
    simp [encodeVaultData, encNat, List.append_assoc]
  rw [decodeVaultData, hshape]
  simp only [decNat, Option.bind_eq_bind, Option.some_bind]
  rw [h1]
  simp only [Option.some_bind]
  rw [h2]
  simp only [Option.some_bind]
  rw [← List.append_nil (encEntries encServer d.ssh_servers), h3]
  simp only [Option.some_bind]
  rfl

/-! ## Container format (src/vx-core/src/vault.rs, save and load) -/

/-- Magic bytes "VX01" (vault.rs VAULT_MAGIC). -/
def VAULT_MAGIC : Bytes := [86, 88, 48, 49]

/-- Header size in bytes: magic, version, reserved. -/
def HEADER_SIZE : Nat := 16

/-- Argon2 salt size (crypto.rs SALT_SIZE). -/
def SALT_SIZE : Nat := 32

/-- AES-GCM nonce size (crypto.rs NONCE_SIZE). -/
def NONCE_SIZE : Nat := 12

/-- Little-endian u32 byte encoding (u32::to_le_bytes). -/
def u32LeBytes (n : Nat) : Bytes :=
  [n % 256, n / 256 % 256, n / 65536 % 256, n / 16777216 % 256]

/-- Little-endian u32 byte decoding (u32::from_le_bytes). -/
def u32FromLe (b : Bytes) : Nat :=
  b.getD 0 0 + 256 * b.getD 1 0 + 65536 * b.getD 2 0 + 16777216 * b.getD 3 0

/-- Mirror of vault.rs save_vault_with_salt. The salt crypto::generate_salt
would sample when no salt is supplied is the explicit argument fresh_salt;
the payload nonce crypto::encrypt samples is the explicit argument nonce. -/
def save_vault_with_salt (vault : Vault) (password : Bytes)
    (salt? : Option Bytes) (fresh_salt : Bytes) (nonce : Bytes) :
    Except VaultError Bytes :=
  let salt := salt?.getD fresh_salt
  let key := derive_key password salt
  let vault_data : VaultData :=
    { version := vault.version
      projects := vault.projects
      ssh_identities := vault.ssh_identities
      ssh_servers := vault.ssh_servers }
  let json := encodeVaultData vault_data
  let encrypted := encrypt json key nonce
  .ok (VAULT_MAGIC ++ u32LeBytes VAULT_VERSION ++ List.replicate 8 0 ++
    salt ++ encrypted.nonce ++ encrypted.ciphertext)

/-- Mirror of vault.rs save_vault (fresh generated salt). -/
def save_vault (vault : Vault) (password : Bytes) (fresh_salt : Bytes)
    (nonce : Bytes) : Except VaultError Bytes :=
  save_vault_with_salt vault password none fresh_salt nonce

/-- Mirror of vault.rs load_vault. -/
def load_vault (data : Bytes) (password : Bytes) : Except VaultError Vault :=
  if data.length < HEADER_SIZE + SALT_SIZE + NONCE_SIZE then .error .CorruptedVault
  else if data.take 4 ≠ VAULT_MAGIC then .error (.InvalidFormat "Invalid magic bytes")
  else
    let version := u32FromLe ((data.drop 4).take 4)
    if version ≠ VAULT_VERSION then
      .error (.InvalidFormat ("Unsupported version: " ++ toString version))
    else
      let salt := (data.drop HEADER_SIZE).take SALT_SIZE
      let key := derive_key password salt
      let nonce := (data.drop (HEADER_SIZE + SALT_SIZE)).take NONCE_SIZE
      let ciphertext := data.drop (HEADER_SIZE + SALT_SIZE + NONCE_SIZE)
      match decrypt { ciphertext := ciphertext, nonce := nonce } key with
      | none => .error .AuthenticationFailed
      | some json =>
        match decodeVaultData json with
        | none => .error (.SerializationError "invalid payload")
        | some vault_data =>
          .ok { version := vault_data.version
                projects := vault_data.projects
                ssh_identities := vault_data.ssh_identities
                ssh_servers := vault_data.ssh_servers }

/-! ## CLI storage layer (src/vx-cli/src/storage.rs) -/

/-- Mirror of the vx-cli error.rs CliError, reduced to the constructors the
storage and session layers produce. -/
inductive CliError where
  | Vault (e : VaultError)
  | Crypto (e : CryptoError)
  | VaultNotFound
  | Generic (msg : String)
deriving DecidableEq, Repr

/-- Mirror of storage.rs extract_salt, on the bytes of the vault file. -/
def extract_salt (data : Bytes) : Except CliError Bytes :=
  if data.length < HEADER_SIZE + SALT_SIZE then .error (.Vault .CorruptedVault)
  else .ok ((data.drop HEADER_SIZE).take SALT_SIZE)

/-- Mirror of storage.rs save_vault. The file system is explicit: existing
is the current content of the vault file (none when the file does not
exist) and the returned bytes are what the atomic write leaves on disk. -/
def storage_save_vault (existing : Option Bytes) (vault : Vault)
    (password : Bytes) (fresh_salt : Bytes) (nonce : Bytes) :
    Except CliError Bytes :=
  match existing with
  | some data =>
    match extract_salt data with
    | .error e => .error e
    | .ok salt =>
      match save_vault_with_salt vault password (some salt) fresh_salt nonce with
      | .error e => .error (.Vault e)
      | .ok out => .ok out
  | none =>
    match save_vault vault password fresh_salt nonce with
    | .error e => .error (.Vault e)
    | .ok out => .ok out

/-! ## Container layout lemmas -/

/-- The fixed 16-byte header a save emits. -/
def containerHeader : Bytes := VAULT_MAGIC ++ u32LeBytes VAULT_VERSION ++ List.replicate 8 0

theorem containerHeader_eq :
    containerHeader = [86, 88, 48, 49, 1, 0, 0, 0, 0, 0, 0, 0, 0, 0, 0, 0] := by decide

theorem save_vault_with_salt_eq (vault : Vault) (password : Bytes)
    (salt? : Option Bytes) (fresh_salt : Bytes) (nonce : Bytes) :
    save_vault_with_salt vault password salt? fresh_salt nonce =
      .ok (containerHeader ++ ((salt?.getD fresh_salt) ++ (nonce ++
        (encrypt (encodeVaultData
          { version := vault.version
            projects := vault.projects
            ssh_identities := vault.ssh_identities
            ssh_servers := vault.ssh_servers })
          (derive_key password (salt?.getD fresh_salt)) nonce).ciphertext))) := by
  simp [save_vault_with_salt, containerHeader, List.append_assoc, encrypt]

theorem container_drop16 (salt rest : Bytes) :
    ((containerHeader ++ (salt ++ rest)).drop 16) = salt ++ rest := by
  rw [containerHeader_eq]
  rfl

theorem container_take4 (salt rest : Bytes) :
    ((containerHeader ++ (salt ++ rest)).take 4) = VAULT_MAGIC := by
  rw [containerHeader_eq]
  rfl

theorem container_version (salt rest : Bytes) :
    u32FromLe (((containerHeader ++ (salt ++ rest)).drop 4).take 4) = 1 := by
  rw [containerHeader_eq]
  rfl

theorem container_length (salt rest : Bytes) :
    (containerHeader ++ (salt ++ rest)).length = 16 + salt.length + rest.length := by
  rw [containerHeader_eq]
  simp
  omega

theorem container_salt (salt rest : Bytes) (hs : salt.length = 32) :
    (((containerHeader ++ (salt ++ rest)).drop 16).take 32) = salt := by
  rw [container_drop16]
  exact List.take_left' hs

theorem container_drop48 (salt rest : Bytes) (hs : salt.length = 32) :
    ((containerHeader ++ (salt ++ rest)).drop 48) = rest := by
  have h : (48 : Nat) = 16 + 32 := by norm_num
  rw [h, ← List.drop_drop, container_drop16]
  exact List.drop_left' hs

theorem container_nonce (salt nonce ct : Bytes) (hs : salt.length = 32)
    (hn : nonce.length = 12) :
    (((containerHeader ++ (salt ++ (nonce ++ ct))).drop 48).take 12) = nonce := by
  rw [container_drop48 _ _ hs]
  exact List.take_left' hn

theorem container_ciphertext (salt nonce ct : Bytes) (hs : salt.length = 32)
    (hn : nonce.length = 12) :
    ((containerHeader ++ (salt ++ (nonce ++ ct))).drop 60) = ct := by
  have h : (60 : Nat) = 48 + 12 := by norm_num
  rw [h, ← List.drop_drop, container_drop48 _ _ hs]
  exact List.drop_left' hn

/-! ## Claim theorems: container -/

theorem load_of_save (v : Vault) (pw : Bytes) (salt nonce : Bytes)
    (hs : salt.length = 32) (hn : nonce.length = 12) :
    load_vault (containerHeader ++ (salt ++ (nonce ++
      (encrypt (encodeVaultData
        { version := v.version
          projects := v.projects
          ssh_identities := v.ssh_identities
          ssh_servers := v.ssh_servers })
        (derive_key pw salt) nonce).ciphertext))) pw = .ok v := by
  have hlen : ¬ ((containerHeader ++ (salt ++ (nonce ++
      (encrypt (encodeVaultData
        { version := v.version
          projects := v.projects
          ssh_identities := v.ssh_identities
          ssh_servers := v.ssh_servers })
        (derive_key pw salt) nonce).ciphertext))).length <
      HEADER_SIZE + SALT_SIZE + NONCE_SIZE) := by
    rw [container_length]
    simp [HEADER_SIZE, SALT_SIZE, NONCE_SIZE]
    omega
  rw [load_vault, if_neg hlen, if_neg (by rw [container_take4]; simp)]
  rw [show HEADER_SIZE = 16 from rfl, show SALT_SIZE = 32 from rfl,
    show NONCE_SIZE = 12 from rfl]
  simp only [container_version, container_salt _ _ hs,
    container_nonce _ _ _ hs hn, container_ciphertext _ _ _ hs hn]
  rw [if_neg (by simp [VAULT_VERSION])]
  have hdec : decrypt
      { ciphertext := (encrypt (encodeVaultData
          { version := v.version
            projects := v.projects
            ssh_identities := v.ssh_identities
            ssh_servers := v.ssh_servers })
          (derive_key pw salt) nonce).ciphertext
        nonce := nonce }
      (derive_key pw salt) = some (encodeVaultData
        { version := v.version
          projects := v.projects
          ssh_identities := v.ssh_identities
          ssh_servers := v.ssh_servers }) := by
    exact decrypt_encrypt _ _ _
  rw [hdec]
  simp [decodeVaultData_encodeVaultData]

/-- C1: for every vault v and password pw, load_vault of save_vault under
the same password succeeds and returns a vault structurally equal to v
(same version, projects with all secret fields, identities, servers); in
particular every stored ciphertext, nonce, created_at and expires_at is
preserved, so each secret still decrypts to the same bytes under the same
key. The salt and nonce the save samples are passed explicitly with their
sizes from crypto.rs. -/
theorem C1_container_roundtrip (v : Vault) (pw : Bytes) (fresh_salt nonce : Bytes)
    (hs : fresh_salt.length = 32) (hn : nonce.length = 12) :
    ∃ data, save_vault v pw fresh_salt nonce = .ok data ∧
      load_vault data pw = .ok v := by
  refine ⟨containerHeader ++ (fresh_salt ++ (nonce ++
      (encrypt (encodeVaultData
        { version := v.version
          projects := v.projects
          ssh_identities := v.ssh_identities
          ssh_servers := v.ssh_servers })
        (derive_key pw fresh_salt) nonce).ciphertext)), ?_, ?_⟩
  · rw [save_vault, save_vault_with_salt_eq]
    rfl
  · exact load_of_save v pw fresh_salt nonce hs hn

/-- C1 witness at a concrete one-project vault and concrete salt, nonce. -/
theorem C1_container_roundtrip_witness :
    ∃ data, save_vault
        { version := 1
          projects := [("web", { name := "web", secrets := [], created_at := 5 })]
          ssh_identities := []
          ssh_servers := [] } [7, 7] (List.replicate 32 1) (List.replicate 12 2)
        = .ok data ∧
      load_vault data [7, 7] = .ok
        { version := 1
          projects := [("web", { name := "web", secrets := [], created_at := 5 })]
          ssh_identities := []
          ssh_servers := [] } :=
  C1_container_roundtrip _ _ _ _ (by decide) (by decide)

/-- C2: when the vault file already exists, a new save writes a container
whose bytes 16..48 (the Argon2 salt region) are exactly bytes 16..48 of the
previous file; the previous file only needs to be large enough for the salt
to be extracted, which every saved container is. -/
theorem C2_salt_stability (prev : Bytes) (v : Vault) (pw : Bytes)
    (fresh_salt nonce : Bytes) (hprev : 48 ≤ prev.length) :
    ∃ data, storage_save_vault (some prev) v pw fresh_salt nonce = .ok data ∧
      (data.drop 16).take 32 = (prev.drop 16).take 32 := by
  have hsalt : extract_salt prev = .ok ((prev.drop 16).take 32) := by
    rw [extract_salt, if_neg]
    · rfl
    · simp [HEADER_SIZE, SALT_SIZE]
      omega
  have hslen : ((prev.drop 16).take 32).length = 32 := by
    simp
    omega
  refine ⟨containerHeader ++ (((prev.drop 16).take 32) ++ (nonce ++
      (encrypt (encodeVaultData
        { version := v.version
          projects := v.projects
          ssh_identities := v.ssh_identities
          ssh_servers := v.ssh_servers })
        (derive_key pw ((prev.drop 16).take 32)) nonce).ciphertext)), ?_, ?_⟩
  · rw [storage_save_vault, hsalt]
    simp [save_vault_with_salt_eq]
  · exact container_salt _ _ hslen

/-- C2 witness at a concrete 60-byte previous file. -/
theorem C2_salt_stability_witness :
    ∃ data, storage_save_vault (some (List.replicate 60 9)) Vault.new [1]
        (List.replicate 32 3) (List.replicate 12 4) = .ok data ∧
      (data.drop 16).take 32 = ((List.replicate 60 9).drop 16).take 32 :=
  C2_salt_stability (List.replicate 60 9) Vault.new [1] _ _ (by decide)

/-- C3: loading a saved container with any password other than the one it
was saved under fails, and fails precisely with AuthenticationFailed. -/
theorem C3_wrong_password (v : Vault) (pw1 pw2 : Bytes) (fresh_salt nonce : Bytes)
    (hs : fresh_salt.length = 32) (hn : nonce.length = 12) (hne : pw1 ≠ pw2) :
    ∃ data, save_vault v pw1 fresh_salt nonce = .ok data ∧
      load_vault data pw2 = .error .AuthenticationFailed := by
  refine ⟨containerHeader ++ (fresh_salt ++ (nonce ++
      (encrypt (encodeVaultData
        { version := v.version
          projects := v.projects
          ssh_identities := v.ssh_identities
          ssh_servers := v.ssh_servers })
        (derive_key pw1 fresh_salt) nonce).ciphertext)), ?_, ?_⟩
  · rw [save_vault, save_vault_with_salt_eq]
    rfl
  · have hlen : ¬ ((containerHeader ++ (fresh_salt ++ (nonce ++
        (encrypt (encodeVaultData
          { version := v.version
            projects := v.projects
            ssh_identities := v.ssh_identities
            ssh_servers := v.ssh_servers })
          (derive_key pw1 fresh_salt) nonce).ciphertext))).length <
        HEADER_SIZE + SALT_SIZE + NONCE_SIZE) := by
      rw [container_length]
      simp [HEADER_SIZE, SALT_SIZE, NONCE_SIZE]
      omega
    rw [load_vault, if_neg hlen, if_neg (by rw [container_take4]; simp)]
    rw [show HEADER_SIZE = 16 from rfl, show SALT_SIZE = 32 from rfl,
      show NONCE_SIZE = 12 from rfl]
    simp only [container_version, container_salt _ _ hs,
      container_nonce _ _ _ hs hn, container_ciphertext _ _ _ hs hn]
    rw [if_neg (by simp [VAULT_VERSION])]
    have hdec : decrypt
        { ciphertext := (encrypt (encodeVaultData
            { version := v.version
              projects := v.projects
              ssh_identities := v.ssh_identities
              ssh_servers := v.ssh_servers })
            (derive_key pw1 fresh_salt) nonce).ciphertext
          nonce := nonce }
        (derive_key pw2 fresh_salt) = none := by
      apply decrypt_encrypt_ne
      intro h
      exact hne (congrArg DerivedKey.pw h).symm
    rw [hdec]

/-- C3 witness: distinct two-byte passwords on the empty vault. -/
theorem C3_wrong_password_witness :
    ∃ data, save_vault Vault.new [1, 2] (List.replicate 32 3) (List.replicate 12 4)
        = .ok data ∧
      load_vault data [1, 3] = .error .AuthenticationFailed :=
  C3_wrong_password Vault.new [1, 2] [1, 3] _ _ (by decide) (by decide) (by decide)

/-- C4: get_secret returns SecretExpired exactly when the project and the
secret both exist and the secret carries an expiry with now at or past it
(the instant of expiry counts as expired). The right-hand side does not
mention the encryption key, so the verdict is reached independently of
decryption, and a secret with absent expires_at is never reported expired
at any now. -/
theorem C4_get_secret_expired (v : Vault) (project : String) (key : String)
    (encryption_key : DerivedKey) (now : Nat) :
    v.get_secret project key encryption_key now = .error (.SecretExpired key) ↔
      ∃ proj, mapGet v.projects project = some proj ∧
        ∃ s, mapGet proj.secrets key = some s ∧
          ∃ e, s.expires_at = some e ∧ e ≤ now := by
  rw [Vault.get_secret]
  cases hp : mapGet v.projects project with
  | none => simp
  | some proj =>
    cases hsec : mapGet proj.secrets key with
    | none => simp [hsec]
    | some s =>
      by_cases hexp : is_expired s.expires_at now
      · simp only [hsec, hexp, if_true, true_iff, Option.some.injEq]
        refine ⟨proj, rfl, s, hsec, ?_⟩
        cases he : s.expires_at with
        | none => simp [is_expired, he] at hexp
        | some e =>
          refine ⟨e, rfl, ?_⟩
          simp [is_expired, he] at hexp
          exact hexp
      · simp only [hsec, hexp, if_false, Bool.false_eq_true]
        constructor
        · intro h
          exfalso
          cases hdec : decrypt { ciphertext := s.encrypted_value, nonce := s.nonce }
              encryption_key with
          | none => rw [hdec] at h; cases h
          | some p => rw [hdec] at h; cases h
        · intro ⟨p', hp', s', hs', e, he, hle⟩
          exfalso
          cases hp'
          rw [hsec] at hs'
          cases hs'
          simp [is_expired, he] at hexp
          omega

/-- C5 counterexample: starting from the empty vault, add an identity named
id, configure a server named srv against it, then call add_ssh_server a
second time with the same server name srv. The claim says the repeated
call fails; in the code it succeeds and silently replaces the entry,
because Vault::add_ssh_server only validates the identity name. -/
theorem C5_counterexample :
    (((((Vault.new.add_ssh_identity "id" "pub" [9] { pw := [1], salt := [2] } 0
        [3]).2.add_ssh_server "srv" "u" "ip" "id" 1).2.add_ssh_server
        "srv" "u2" "ip2" "id" 2).1 = .ok ()) ∧
      mapGet (((Vault.new.add_ssh_identity "id" "pub" [9]
        { pw := [1], salt := [2] } 0 [3]).2.add_ssh_server "srv" "u" "ip" "id"
        1).2.add_ssh_server "srv" "u2" "ip2" "id" 2).2.ssh_servers "srv" =
        some ⟨"srv", "u2", "ip2", "id", 2⟩) := by decide

/-- C5 amended: a repeated init_project fails with ProjectAlreadyExists and
leaves the vault unchanged, and a repeated add_ssh_identity fails with
IdentityAlreadyExists and leaves the vault unchanged; but a repeated
add_ssh_server whose identity_name exists does not fail: it succeeds and
silently replaces the stored server entry. -/
theorem C5_uniqueness_amended (v : Vault) (n : String) (pub : String)
    (priv : Bytes) (ek : DerivedKey) (u ip idn : String) (now : Nat)
    (nonce : Bytes) :
    (mapContains v.projects n = true →
      v.init_project n now = (.error (.ProjectAlreadyExists n), v)) ∧
    (mapContains v.ssh_identities n = true →
      v.add_ssh_identity n pub priv ek now nonce =
        (.error (.IdentityAlreadyExists n), v)) ∧
    (mapContains v.ssh_identities idn = true →
      v.add_ssh_server n u ip idn now = (.ok (),
        { v with ssh_servers := mapInsert v.ssh_servers n ⟨n, u, ip, idn, now⟩ })) := by
  refine ⟨?_, ?_, ?_⟩
  · intro h
    rw [Vault.init_project, if_pos h]
  · intro h
    rw [Vault.add_ssh_identity, if_pos h]
  · intro h
    rw [Vault.add_ssh_server, if_neg (by simp [h])]

/-- A concrete vault that already holds a project, an identity and a server
all named x, used to witness the amended C5. -/
def c5vault : Vault :=
  { version := 1
    projects := [("x", { name := "x", secrets := [], created_at := 0 })]
    ssh_identities := [("x", ⟨"x", "pk", [], [], 0⟩)]
    ssh_servers := [("x", ⟨"x", "u", "ip", "x", 0⟩)] }

/-- C5 witness: on c5vault the two duplicate adds fail leaving it unchanged
while the duplicate server add succeeds. -/
theorem C5_uniqueness_amended_witness :
    Vault.init_project c5vault "x" 5 = (.error (.ProjectAlreadyExists "x"), c5vault) ∧
    Vault.add_ssh_identity c5vault "x" "pk2" [7] { pw := [1], salt := [2] } 5 [8] =
      (.error (.IdentityAlreadyExists "x"), c5vault) ∧
    (Vault.add_ssh_server c5vault "x" "u2" "ip2" "x" 5).1 = .ok () := by
  have h := C5_uniqueness_amended c5vault "x" "pk2" [7] { pw := [1], salt := [2] }
    "u2" "ip2" "x" 5 [8]
  exact ⟨h.1 (by decide), h.2.1 (by decide), by rw [h.2.2 (by decide)]⟩

/-! ## TTL parsing lemmas and claims C6, C7 -/

/-- Character of one decimal digit. -/
def decDigitChar (d : Nat) : Char :=
  if d = 0 then '0' else if d = 1 then '1' else if d = 2 then '2'
  else if d = 3 then '3' else if d = 4 then '4' else if d = 5 then '5'
  else if d = 6 then '6' else if d = 7 then '7' else if d = 8 then '8' else '9'

/-- Decimal digit characters of n, most significant first: the text form
the claim builds its inputs from. -/
def natDecimalDigits (n : Nat) : List Char :=
  (Nat.digits 10 n).reverse.map decDigitChar

/-- The unit multiplier table of the claim. -/
def ttlMultiplier (u : Char) : Nat :=
  if u = 'm' then SECONDS_PER_MINUTE
  else if u = 'h' then SECONDS_PER_HOUR
  else if u = 'd' then SECONDS_PER_DAY
  else SECONDS_PER_WEEK

theorem decDigitChar_isDigit (d : Nat) (h : d < 10) :
    isAsciiDigit (decDigitChar d) = true := by
  interval_cases d <;> decide

theorem decDigitChar_toNat (d : Nat) (h : d < 10) :
    (decDigitChar d).toNat - 48 = d := by
  interval_cases d <;> decide

theorem digit_not_ws (c : Char) (h : isAsciiDigit c = true) :
    rustWhitespace c = false := by
  simp [isAsciiDigit] at h
  simp [rustWhitespace]
  omega

theorem digit_not_plus (c : Char) (h : isAsciiDigit c = true) : ¬ c = '+' := by
  intro hc
  subst hc
  simp [isAsciiDigit] at h

theorem natDecimalDigits_all_digits (n : Nat) :
    ∀ c ∈ natDecimalDigits n, isAsciiDigit c = true := by
  intro c hc
  rw [natDecimalDigits] at hc
  obtain ⟨d, hd, rfl⟩ := List.mem_map.mp hc
  have hd10 : d < 10 := Nat.digits_lt_base (by norm_num) (List.mem_reverse.mp hd)
  exact decDigitChar_isDigit d hd10

theorem natDecimalDigits_ne_nil (n : Nat) (h : 1 ≤ n) :
    natDecimalDigits n ≠ [] := by
  rw [natDecimalDigits]
  simp [Nat.digits_ne_nil_iff_ne_zero]
  omega

theorem foldl_decDigitChar (L : List Nat) (hL : ∀ d ∈ L, d < 10) :
    ∀ a : Nat, (L.map decDigitChar).foldl (fun x c => x * 10 + (c.toNat - 48)) a =
      L.foldl (fun x d => x * 10 + d) a := by
  induction L with
  | nil => intro a; rfl
  | cons d t ih =>
    intro a
    have hd : d < 10 := hL d (by simp)
    simp only [List.map_cons, List.foldl_cons, decDigitChar_toNat d hd]
    exact ih (fun e he => hL e (by simp [he])) _

theorem foldl_reverse_ofDigits (L : List Nat) :
    ∀ a : Nat, L.reverse.foldl (fun x d => x * 10 + d) a =
      a * 10 ^ L.length + Nat.ofDigits 10 L := by
  induction L with
  | nil => intro a; simp [Nat.ofDigits]
  | cons d t ih =>
    intro a
    simp only [List.reverse_cons, List.foldl_append, List.foldl_cons,
      List.foldl_nil, ih a, List.length_cons, Nat.ofDigits_cons]
    ring

theorem digitsVal_natDecimalDigits (n : Nat) :
    digitsVal (natDecimalDigits n) = n := by
  rw [digitsVal, natDecimalDigits]
  rw [foldl_decDigitChar _ (fun d hd =>
    Nat.digits_lt_base (by norm_num) (List.mem_reverse.mp hd))]
  rw [foldl_reverse_ofDigits]
  simp [Nat.ofDigits_digits]

theorem parseU64_natDecimalDigits (n : Nat) (h1 : 1 ≤ n) (h2 : n ≤ U64_MAX) :
    parseU64 (natDecimalDigits n) = some n := by
  have hall := natDecimalDigits_all_digits n
  have hne := natDecimalDigits_ne_nil n h1
  have hstrip : stripPlusSign (natDecimalDigits n) = natDecimalDigits n := by
    cases hd : natDecimalDigits n with
    | nil => rfl
    | cons c cs =>
      have hc : isAsciiDigit c = true := by
        apply hall
        rw [hd]
        simp
      rw [stripPlusSign, if_neg (digit_not_plus c hc)]
  rw [parseU64, hstrip]
  rw [if_pos]
  · rw [digitsVal_natDecimalDigits]
  · simp [hne, digitsVal_natDecimalDigits, h2, List.isEmpty_iff]
    exact hall

theorem dropWhile_append_all {p : Char → Bool} (l r : List Char)
    (hl : l.all p = true) : (l ++ r).dropWhile p = r.dropWhile p := by
  induction l with
  | nil => rfl
  | cons c t ih =>
    simp at hl
    simp [List.dropWhile_cons, hl.1, ih (List.all_eq_true.mpr (by
      intro x hx
      exact hl.2 x hx))]

theorem dropWhile_cons_false {p : Char → Bool} (c : Char) (r : List Char)
    (hc : p c = false) : (c :: r).dropWhile p = c :: r := by
  simp [List.dropWhile_cons, hc]

theorem rustTrim_sandwich (w1 w2 core : List Char)
    (hw1 : w1.all rustWhitespace = true) (hw2 : w2.all rustWhitespace = true)
    (hhead : ∀ c, core.head? = some c → rustWhitespace c = false)
    (hlast : ∀ c, core.getLast? = some c → rustWhitespace c = false)
    (hne : core ≠ []) :
    rustTrim (w1 ++ (core ++ w2)) = core := by
  rw [rustTrim, dropWhile_append_all _ _ hw1]
  cases hc : core with
  | nil => exact absurd hc hne
  | cons c0 t =>
    have h0 : rustWhitespace c0 = false := by
      apply hhead
      rw [hc]
      rfl
    rw [List.cons_append, dropWhile_cons_false _ _ h0, ← List.cons_append, ← hc]
    rw [List.reverse_append]
    rw [dropWhile_append_all _ _ (by simpa using hw2)]
    cases hr : core.reverse with
    | nil => simp at hr; exact absurd hr hne
    | cons cl tl =>
      have hl : rustWhitespace cl = false := by
        apply hlast
        rw [← List.head?_reverse, hr]
        rfl
      rw [dropWhile_cons_false _ _ hl, ← hr]
      simp

/-- C6: for every n in 1..10000 and unit u among m, h, d, w, parse_ttl on
the decimal digits of n followed by u, optionally surrounded by ASCII
whitespace, returns n times the unit multiplier (60, 3600, 86400, 604800
seconds). -/
theorem C6_parse_ttl_units (n : Nat) (u : Char) (w1 w2 : List Char)
    (h1 : 1 ≤ n) (h2 : n ≤ 10000) (hu : u ∈ ['m', 'h', 'd', 'w'])
    (hw1 : w1.all rustWhitespace = true) (hw2 : w2.all rustWhitespace = true) :
    parse_ttl (w1 ++ natDecimalDigits n ++ [u] ++ w2) = .ok (n * ttlMultiplier u) := by
  have hu' : u = 'm' ∨ u = 'h' ∨ u = 'd' ∨ u = 'w' := by simpa using hu
  have huns : rustWhitespace u = false := by
    rcases hu' with rfl | rfl | rfl | rfl
    · rfl
    · rfl
    · rfl
    · rfl
  have hcore : rustTrim (w1 ++ ((natDecimalDigits n ++ [u]) ++ w2)) =
      natDecimalDigits n ++ [u] := by
    apply rustTrim_sandwich _ _ _ hw1 hw2
    · intro c hcd
      cases hd : natDecimalDigits n with
      | nil => exact absurd hd (natDecimalDigits_ne_nil n h1)
      | cons c0 t =>
        rw [hd] at hcd
        simp at hcd
        rw [← hcd]
        apply digit_not_ws
        apply natDecimalDigits_all_digits n
        rw [hd]
        simp
    · intro c hcl
      rw [List.getLast?_concat] at hcl
      cases hcl
      exact huns
    · simp
  have hshape : w1 ++ natDecimalDigits n ++ [u] ++ w2 =
      w1 ++ ((natDecimalDigits n ++ [u]) ++ w2) := by
    simp [List.append_assoc]
  rw [parse_ttl, hshape, hcore]
  have hp64 : parseU64 (natDecimalDigits n) = some n :=
    parseU64_natDecimalDigits n h1 (le_trans h2 (by norm_num [U64_MAX]))
  have hn0 : ¬ (n = 0) := by omega
  have hlen : (natDecimalDigits n ++ [u]).length - 1 = (natDecimalDigits n).length := by
    simp
  rcases hu' with rfl | rfl | rfl | rfl
  · have hmax : n * SECONDS_PER_MINUTE ≤ U64_MAX := by
      simp only [SECONDS_PER_MINUTE, U64_MAX]
      omega
    simp [hlen, List.take_left, List.drop_left, hp64, hn0, ttlMultiplier, hmax]
  · have hmax : n * SECONDS_PER_HOUR ≤ U64_MAX := by
      simp only [SECONDS_PER_HOUR, U64_MAX]
      omega
    simp [hlen, List.take_left, List.drop_left, hp64, hn0, ttlMultiplier, hmax]
  · have hmax : n * SECONDS_PER_DAY ≤ U64_MAX := by
      simp only [SECONDS_PER_DAY, U64_MAX]
      omega
    simp [hlen, List.take_left, List.drop_left, hp64, hn0, ttlMultiplier, hmax]
  · have hmax : n * SECONDS_PER_WEEK ≤ U64_MAX := by
      simp only [SECONDS_PER_WEEK, U64_MAX]
      omega
    simp [hlen, List.take_left, List.drop_left, hp64, hn0, ttlMultiplier, hmax]

/-- C6 witness: a space, the digits of 30, unit m, trailing tab. -/
theorem C6_parse_ttl_units_witness :
    parse_ttl ([' '] ++ natDecimalDigits 30 ++ ['m'] ++ ['\t']) =
      .ok (30 * ttlMultiplier 'm') :=
  C6_parse_ttl_units 30 'm' [' '] ['\t'] (by decide) (by decide) (by decide)
    (by decide) (by decide)

/-- C7 counterexample: the claim says the all-digit input 10 yields
InvalidFormat; the code splits 10 into body 1 and unit 0 and yields
InvalidUnit of the character 0 instead. -/
theorem C7_counterexample :
    parse_ttl ['1', '0'] = .error (.InvalidUnit '0') := by decide

/-- True exactly on results that are an InvalidFormat error. -/
def isInvalidFormatResult : Except TtlError Nat → Bool
  | .error (.InvalidFormat _) => true
  | _ => false

/-- C7 amended: on ASCII input, parse_ttl yields InvalidFormat exactly when
the trimmed input is empty or its body before the final character is
rejected by Rust's u64 parser (which also accepts a leading plus sign); in
particular an all-digit input such as 10 is split into body and unit and
yields InvalidUnit of its last digit, not InvalidFormat, and a
plus-prefixed numeric body with a valid unit parses successfully. -/
theorem C7_invalid_format_amended (s : List Char)
    (_hascii : s.all (fun c => c.toNat < 128) = true) :
    isInvalidFormatResult (parse_ttl s) =
      ((rustTrim s).isEmpty ||
        (parseU64 ((rustTrim s).take ((rustTrim s).length - 1))).isNone) := by
  by_cases he : (rustTrim s).isEmpty = true
  · simp [parse_ttl, he, isInvalidFormatResult]
  · have hne : rustTrim s ≠ [] := by
      simpa [List.isEmpty_iff] using he
    cases hp : parseU64 ((rustTrim s).take ((rustTrim s).length - 1)) with
    | none => simp [parse_ttl, he, hp, isInvalidFormatResult]
    | some value =>
      have hdrop : ∃ c, (rustTrim s).drop ((rustTrim s).length - 1) = [c] := by
        have hlen : ((rustTrim s).drop ((rustTrim s).length - 1)).length = 1 := by
          rw [List.length_drop]
          have : 1 ≤ (rustTrim s).length := by
            cases hrs : rustTrim s with
            | nil => exact absurd hrs hne
            | cons a l => simp
          omega
        cases hd : (rustTrim s).drop ((rustTrim s).length - 1) with
        | nil => rw [hd] at hlen; simp at hlen
        | cons c l =>
          rw [hd] at hlen
          simp at hlen
          exact ⟨c, by rw [hlen]⟩
      obtain ⟨c, hc⟩ := hdrop
      simp only [parse_ttl, he, hp, hc, Bool.false_eq_true, if_false,
        List.head?_cons, Option.isNone_some, Bool.or_false]
      by_cases h0 : value = 0
      · simp [h0, isInvalidFormatResult]
      · simp only [h0, if_false]
        by_cases hm : c = 'm'
        · by_cases hov : value * SECONDS_PER_MINUTE ≤ U64_MAX <;>
            simp [hm, hov, isInvalidFormatResult]
        · by_cases hh : c = 'h'
          · by_cases hov : value * SECONDS_PER_HOUR ≤ U64_MAX <;>
              simp [hm, hh, hov, isInvalidFormatResult]
          · by_cases hd : c = 'd'
            · by_cases hov : value * SECONDS_PER_DAY ≤ U64_MAX <;>
                simp [hm, hh, hd, hov, isInvalidFormatResult]
            · by_cases hw : c = 'w'
              · by_cases hov : value * SECONDS_PER_WEEK ≤ U64_MAX <;>
                  simp [hm, hh, hd, hw, hov, isInvalidFormatResult]
              · simp [hm, hh, hd, hw, isInvalidFormatResult]

/-- C7 amended witness at the concrete input abc, where the body ab is
rejected by the u64 parser. -/
theorem C7_invalid_format_amended_witness :
    isInvalidFormatResult (parse_ttl ['a', 'b', 'c']) =
      ((rustTrim ['a', 'b', 'c']).isEmpty ||
        (parseU64 ((rustTrim ['a', 'b', 'c']).take
          ((rustTrim ['a', 'b', 'c']).length - 1))).isNone) :=
  C7_invalid_format_amended ['a', 'b', 'c'] (by decide)

/-! ## Session cache (src/vx-cli/src/session.rs and
src/vx-cli/src/commands/login.rs)

Both files derive a session key from the string vaultx_session_{id}_key,
but session.rs builds the Argon2 salt deterministically from the session
identifier while login.rs calls crypto::generate_salt, a fresh random draw,
on every derivation. The randomness is passed explicitly here. -/

/-- The salt-input string both derive_session_key functions feed Argon2id. -/
def session_salt_input (session_id : Nat) : Bytes :=
  strBytes ("vaultx_session_" ++ toString session_id ++ "_key")

/-- Mirror of the session.rs deterministic salt: the four little-endian
bytes of the u32 session id tiled to 16 bytes, each with a wrapping
per-byte offset. -/
def session_salt (session_id : Nat) : Bytes :=
  (List.range 16).map (fun i => ((u32LeBytes session_id).getD (i % 4) 0 + i) % 256)

/-- Mirror of session.rs derive_session_key: deterministic in the session
identifier alone. -/
def session_derive_session_key (session_id : Nat) : DerivedKey :=
  derive_key (session_salt_input session_id) (session_salt session_id)

/-- Mirror of login.rs derive_session_key: the salt is a fresh
crypto::generate_salt draw on every call, passed explicitly. -/
def login_derive_session_key (pid : Nat) (random_salt : Bytes) : DerivedKey :=
  derive_key (session_salt_input pid) random_salt

/-- Stand-in for the 32 raw key bytes cache_password writes at the head of
the cache file; the read path slices past them without using them, so only
their length matters. -/
def keyFileBytes (k : DerivedKey) : Bytes :=
  (lenFrame k.pw ++ lenFrame k.salt ++ List.replicate 32 0).take 32

theorem keyFileBytes_length (k : DerivedKey) : (keyFileBytes k).length = 32 := by
  simp [keyFileBytes, lenFrame]
  omega

/-- Mirror of session.rs cache_password: the cache file bytes written, key
bytes then nonce then ciphertext. -/
def session_cache_password (session_id : Nat) (password : Bytes)
    (nonce : Bytes) : Bytes :=
  keyFileBytes (session_derive_session_key session_id) ++
    ((encrypt password (session_derive_session_key session_id) nonce).nonce ++
      (encrypt password (session_derive_session_key session_id) nonce).ciphertext)

/-- Mirror of session.rs get_cached_password on an explicit file state:
returns the recovered password, if any, together with the file state
afterwards (a failed read removes the stale file). -/
def session_get_cached_password (session_id : Nat) (file : Option Bytes) :
    Option Bytes × Option Bytes :=
  match file with
  | none => (none, none)
  | some data =>
    if data.length < 32 + 12 then (none, none)
    else
      match decrypt { ciphertext := data.drop (32 + 12), nonce := (data.drop 32).take 12 }
          (session_derive_session_key session_id) with
      | some password => (some password, some data)
      | none => (none, none)

/-- Mirror of login.rs cache_password, whose session key depends on the
fresh random salt drawn during this call. -/
def login_cache_password (pid : Nat) (password : Bytes) (random_salt : Bytes)
    (nonce : Bytes) : Bytes :=
  keyFileBytes (login_derive_session_key pid random_salt) ++
    ((encrypt password (login_derive_session_key pid random_salt) nonce).nonce ++
      (encrypt password (login_derive_session_key pid random_salt) nonce).ciphertext)

/-- Mirror of login.rs get_cached_password, whose session key depends on
the fresh random salt drawn during this call. -/
def login_get_cached_password (pid : Nat) (random_salt : Bytes)
    (file : Option Bytes) : Option Bytes × Option Bytes :=
  match file with
  | none => (none, none)
  | some data =>
    if data.length < 32 + 12 then (none, none)
    else
      match decrypt { ciphertext := data.drop (32 + 12), nonce := (data.drop 32).take 12 }
          (login_derive_session_key pid random_salt) with
      | some password => (some password, some data)
      | none => (none, none)

theorem cache_file_nonce (kb n ct : Bytes) (hk : kb.length = 32)
    (hn : n.length = 12) : ((kb ++ (n ++ ct)).drop 32).take 12 = n := by
  rw [List.drop_left' hk]
  exact List.take_left' hn

theorem cache_file_ciphertext (kb n ct : Bytes) (hk : kb.length = 32)
    (hn : n.length = 12) : (kb ++ (n ++ ct)).drop (32 + 12) = ct := by
  rw [← List.drop_drop, List.drop_left' hk]
  exact List.drop_left' hn

theorem cache_file_length (kb n ct : Bytes) (hk : kb.length = 32)
    (hn : n.length = 12) : ¬ ((kb ++ (n ++ ct)).length < 32 + 12) := by
  simp [hk, hn]
  omega

/-- The session.rs pair does round-trip: with the key a deterministic
function of the session identifier, get recovers the cached password. -/
theorem session_cache_roundtrip (session_id : Nat) (password nonce : Bytes)
    (hn : nonce.length = 12) :
    session_get_cached_password session_id
        (some (session_cache_password session_id password nonce)) =
      (some password, some (session_cache_password session_id password nonce)) := by
  rw [session_get_cached_password, session_cache_password]
  rw [if_neg (cache_file_length _ _ _ (keyFileBytes_length _) (by simp [encrypt, hn]))]
  rw [cache_file_nonce _ _ _ (keyFileBytes_length _) (by simp [encrypt, hn]),
    cache_file_ciphertext _ _ _ (keyFileBytes_length _) (by simp [encrypt, hn])]
  have hd : decrypt ⟨(encrypt password (session_derive_session_key session_id)
      nonce).ciphertext,
      (encrypt password (session_derive_session_key session_id) nonce).nonce⟩
      (session_derive_session_key session_id) = some password :=
    decrypt_encrypt password (session_derive_session_key session_id) nonce
  rw [hd]

/-- C8: evaluation of the login.rs pair at the failing scenario. The
session identifier is the same at write and read time, but because
login.rs's derive_session_key salts Argon2id with a fresh random draw on
every call, the key derived at read time differs from the key derived at
write time whenever the two draws differ, decryption fails, get returns
nothing and the cache file is removed. -/
theorem C8_login_cache_unrecoverable (pid : Nat) (password : Bytes)
    (salt_w salt_r nonce : Bytes) (hn : nonce.length = 12)
    (hne : salt_w ≠ salt_r) :
    login_get_cached_password pid salt_r
        (some (login_cache_password pid password salt_w nonce)) = (none, none) := by
  rw [login_get_cached_password, login_cache_password]
  rw [if_neg (cache_file_length _ _ _ (keyFileBytes_length _) (by simp [encrypt, hn]))]
  rw [cache_file_nonce _ _ _ (keyFileBytes_length _) (by simp [encrypt, hn]),
    cache_file_ciphertext _ _ _ (keyFileBytes_length _) (by simp [encrypt, hn])]
  have hd : decrypt ⟨(encrypt password (login_derive_session_key pid salt_w)
      nonce).ciphertext,
      (encrypt password (login_derive_session_key pid salt_w) nonce).nonce⟩
      (login_derive_session_key pid salt_r) = none :=
    decrypt_encrypt_ne password (login_derive_session_key pid salt_w)
      (login_derive_session_key pid salt_r) nonce (by
        intro h
        exact hne (congrArg DerivedKey.salt h).symm)
  rw [hd]

/-- C8 witness: the same process id at write and read, two distinct random
salts, a cached password that get cannot recover. -/
theorem C8_login_cache_unrecoverable_witness :
    login_get_cached_password 1 [1] (some (login_cache_password 1 [5] [0]
      (List.replicate 12 0))) = (none, none) :=
  C8_login_cache_unrecoverable 1 [5] [0] [1] (List.replicate 12 0)
    (by decide) (by decide)

/-! ## Claims C9 and C10: the mutating operations as a step relation -/

/-- The mutating public operations of the vault model, carrying the wall
clock reading and the randomness of each call as data. -/
inductive VaultOp where
  | initProject (name : String) (now : Nat)
  | addSecret (project : String) (key : String) (value : Bytes)
      (encryption_key : DerivedKey) (ttl_seconds : Option Nat) (now : Nat)
      (nonce : Bytes)
  | addSshIdentity (name : String) (public_key : String) (private_key : Bytes)
      (encryption_key : DerivedKey) (now : Nat) (nonce : Bytes)
  | addSshServer (name : String) (username : String) (ip_address : String)
      (identity_name : String) (now : Nat)
  | removeProject (name : String)
  | removeSecret (project : String) (key : String)

/-- Dispatches one operation to the corresponding Vault method. -/
def applyOp (op : VaultOp) (v : Vault) : Except VaultError Unit × Vault :=
  match op with
  | .initProject name now => v.init_project name now
  | .addSecret project key value ek ttl now nonce =>
    v.add_secret project key value ek ttl now nonce
  | .addSshIdentity name pk sk ek now nonce =>
    v.add_ssh_identity name pk sk ek now nonce
  | .addSshServer name u ip idn now => v.add_ssh_server name u ip idn now
  | .removeProject name => v.remove_project name
  | .removeSecret project key => v.remove_secret project key

/-- C9: every mutating vault operation is atomic with respect to errors:
whenever it returns an error, the vault afterwards is exactly the vault
before — nothing was added, removed or modified. -/
theorem C9_error_atomicity (op : VaultOp) (v : Vault) (e : VaultError)
    (h : (applyOp op v).1 = .error e) : (applyOp op v).2 = v := by
  cases op with
  | initProject name now =>
    by_cases hc : mapContains v.projects name
    · simp [applyOp, Vault.init_project, hc]
    · simp [applyOp, Vault.init_project, hc] at h
  | addSecret project key value ek ttl now nonce =>
    cases hg : mapGet v.projects project with
    | none => simp [applyOp, Vault.add_secret, hg]
    | some proj => simp [applyOp, Vault.add_secret, hg] at h
  | addSshIdentity name pk sk ek now nonce =>
    by_cases hc : mapContains v.ssh_identities name
    · simp [applyOp, Vault.add_ssh_identity, hc]
    · simp [applyOp, Vault.add_ssh_identity, hc] at h
  | addSshServer name u ip idn now =>
    by_cases hc : mapContains v.ssh_identities idn
    · simp [applyOp, Vault.add_ssh_server, hc] at h
    · simp [applyOp, Vault.add_ssh_server, hc]
  | removeProject name =>
    by_cases hr : (mapRemove v.projects name).2
    · simp [applyOp, Vault.remove_project, hr] at h
    · simp only [applyOp, Vault.remove_project, hr, Bool.false_eq_true, if_false]
      rw [mapRemove_absent v.projects name (by simpa using hr)]
  | removeSecret project key =>
    cases hg : mapGet v.projects project with
    | none => simp [applyOp, Vault.remove_secret, hg]
    | some proj =>
      by_cases hr : (mapRemove proj.secrets key).2
      · simp [applyOp, Vault.remove_secret, hg, hr] at h
      · simp only [applyOp, Vault.remove_secret, hg, hr, Bool.false_eq_true,
          if_false]
        rw [mapRemove_absent proj.secrets key (by simpa using hr)]
        show { v with projects := mapInsert v.projects project proj } = v
        rw [mapInsert_get_self v.projects project proj hg]

/-- C9 witness: removing an absent project from the empty vault errors and
leaves the vault untouched. -/
theorem C9_error_atomicity_witness :
    (applyOp (.removeProject "x") Vault.new).2 = Vault.new :=
  C9_error_atomicity (.removeProject "x") Vault.new (.ProjectNotFound "x")
    (by decide)

/-- The name-consistency invariant of claim C10: every map binding stores a
record whose own name field equals its map key, at both nesting levels. -/
def nameConsistent (v : Vault) : Prop :=
  (∀ e ∈ v.projects, e.2.name = e.1 ∧ ∀ se ∈ e.2.secrets, se.2.key = se.1) ∧
  (∀ e ∈ v.ssh_identities, e.2.name = e.1) ∧
  (∀ e ∈ v.ssh_servers, e.2.name = e.1)

/-- Runs a sequence of public mutating operations from the empty vault;
the reachable states of claim C10. -/
def runOps (ops : List VaultOp) : Vault :=
  ops.foldl (fun v op => (applyOp op v).2) Vault.new

theorem nameConsistent_step (op : VaultOp) (v : Vault)
    (h : nameConsistent v) : nameConsistent ((applyOp op v).2) := by
  obtain ⟨hproj, hid, hsrv⟩ := h
  cases op with
  | initProject name now =>
    by_cases hc : mapContains v.projects name
    · simpa [applyOp, Vault.init_project, hc] using ⟨hproj, hid, hsrv⟩
    · simp only [applyOp, Vault.init_project, hc, Bool.false_eq_true, if_false]
      refine ⟨?_, hid, hsrv⟩
      intro e he
      rcases mapInsert_mem _ _ _ _ he with rfl | he'
      · exact ⟨rfl, by simp⟩
      · exact hproj e he'
  | addSecret project key value ek ttl now nonce =>
    cases hg : mapGet v.projects project with
    | none => simpa [applyOp, Vault.add_secret, hg] using ⟨hproj, hid, hsrv⟩
    | some proj =>
      simp only [applyOp, Vault.add_secret, hg]
      refine ⟨?_, hid, hsrv⟩
      intro e he
      rcases mapInsert_mem _ _ _ _ he with rfl | he'
      · have hpm := hproj _ (mapGet_mem _ _ _ hg)
        refine ⟨hpm.1, ?_⟩
        intro se hse
        rcases mapInsert_mem _ _ _ _ hse with rfl | hse'
        · rfl
        · exact hpm.2 se hse'
      · exact hproj e he'
  | addSshIdentity name pk sk ek now nonce =>
    by_cases hc : mapContains v.ssh_identities name
    · simpa [applyOp, Vault.add_ssh_identity, hc] using ⟨hproj, hid, hsrv⟩
    · simp only [applyOp, Vault.add_ssh_identity, hc, Bool.false_eq_true, if_false]
      refine ⟨hproj, ?_, hsrv⟩
      intro e he
      rcases mapInsert_mem _ _ _ _ he with rfl | he'
      · rfl
      · exact hid e he'
  | addSshServer name u ip idn now =>
    by_cases hc : mapContains v.ssh_identities idn
    · simp only [applyOp, Vault.add_ssh_server, hc, Bool.not_true,
        Bool.false_eq_true, if_false]
      refine ⟨hproj, hid, ?_⟩
      intro e he
      rcases mapInsert_mem _ _ _ _ he with rfl | he'
      · rfl
      · exact hsrv e he'
    · simpa [applyOp, Vault.add_ssh_server, hc] using ⟨hproj, hid, hsrv⟩
  | removeProject name =>
    by_cases hr : (mapRemove v.projects name).2 <;>
      [skip; skip] <;>
      simp only [applyOp, Vault.remove_project, hr, if_true, Bool.false_eq_true,
        if_false] <;>
      exact ⟨fun e he => hproj e (mapRemove_mem _ _ _ he), hid, hsrv⟩
  | removeSecret project key =>
    cases hg : mapGet v.projects project with
    | none => simpa [applyOp, Vault.remove_secret, hg] using ⟨hproj, hid, hsrv⟩
    | some proj =>
      have hbody : nameConsistent { v with projects := mapInsert v.projects project { proj with secrets := (mapRemove proj.secrets key).1 } } := by
        refine ⟨?_, hid, hsrv⟩
        intro e he
        rcases mapInsert_mem _ _ _ _ he with rfl | he'
        · have hpm := hproj _ (mapGet_mem _ _ _ hg)
          exact ⟨hpm.1, fun se hse => hpm.2 se (mapRemove_mem _ _ _ hse)⟩
        · exact hproj e he'
      by_cases hr : (mapRemove proj.secrets key).2
      · simpa [applyOp, Vault.remove_secret, hg, hr] using hbody
      · simpa [applyOp, Vault.remove_secret, hg, hr] using hbody

theorem nameConsistent_foldl (ops : List VaultOp) :
    ∀ v, nameConsistent v →
      nameConsistent (ops.foldl (fun v op => (applyOp op v).2) v) := by
  induction ops with
  | nil => intro v h; exact h
  | cons op rest ih => intro v h; exact ih _ (nameConsistent_step op v h)

/-- C10: every vault reachable from Vault::new by any sequence of the
public mutating operations satisfies the name-consistency invariant: every
project is stored under its own name, every secret under its own key,
every identity and every server under its own name. -/
theorem C10_name_consistency (ops : List VaultOp) : nameConsistent (runOps ops) := by
  rw [runOps]
  apply nameConsistent_foldl
  refine ⟨?_, ?_, ?_⟩ <;> intro e he <;> simp [Vault.new] at he


end VX
